import Mathlib

/-!
Shallow embedding of the `go-timecache` library (`timecache.go`) together
with proofs of the specification claims.

The `TimeCache` struct holds a cached timestamp (`cachedTimeNano`, an
`int64` number of nanoseconds since the Unix epoch), the configured update
`resolution` (a `time.Duration`, i.e. `int64` nanoseconds), a stop channel
and a ticker driving a background update goroutine.  We model the mutable
state as a record, the background `updateLoop` as a step function over an
event alphabet (ticker ticks carrying the sampled wall-clock time, and
receipt of the stop signal), and panics of the Go runtime (`close` of a
closed channel, `time.NewTicker` with a non-positive duration) as
`Except.error` results carrying the Go panic message.

Machine integers (`int64`) are modelled as `Int`; wrap-around is applied
explicitly (`wrap64`) where the Go code could overflow.
-/

namespace timecache

/-- `time.Microsecond` (Go `time.Duration` constant, in nanoseconds). -/
def timeMicrosecond : Int := 1000

/-- State of a `TimeCache` value together with the state of its stop
channel and of the background updater goroutine/ticker.
`cachedTimeNano` is the atomically published timestamp; `resolution` the
update frequency; `stopChClosed` records whether `close(tc.stopCh)` has
happened; `tickerRunning` records whether the `updateLoop` goroutine is
still in its `for`/`select` loop (it exits after consuming the stop
signal, also stopping the ticker). -/
structure TimeCache where
  cachedTimeNano : Int
  resolution : Int
  stopChClosed : Bool
  tickerRunning : Bool
deriving Repr, DecidableEq

/-- `NewWithResolution` : builds the cache, samples `time.Now().UnixNano()`
synchronously (the `now` argument is that sample), then calls
`time.NewTicker(resolution)` — which panics for a non-positive duration
(Go runtime behaviour, modelled as `Except.error`) — and finally starts
the background `updateLoop`. -/
def NewWithResolution (resolution : Int) (now : Int) : Except String TimeCache :=
  if resolution ≤ 0 then
    Except.error "non-positive interval for NewTicker"
  else
    Except.ok { cachedTimeNano := now, resolution := resolution,
                stopChClosed := false, tickerRunning := true }

/-- `New` : `NewWithResolution(500 * time.Microsecond)`. -/
def New (now : Int) : Except String TimeCache :=
  NewWithResolution (500 * timeMicrosecond) now

/-- The package `init` function: `defaultCache = NewWithResolution(500 * time.Microsecond)`. -/
def initDefaultCache (now : Int) : Except String TimeCache :=
  NewWithResolution (500 * timeMicrosecond) now

/-- `CachedTimeNano` method: atomic load of the published timestamp. -/
def TimeCache.CachedTimeNano (tc : TimeCache) : Int :=
  tc.cachedTimeNano

/-- `Resolution` method: returns the configured update frequency. -/
def TimeCache.Resolution (tc : TimeCache) : Int :=
  tc.resolution

/-- `Stop` method: `close(tc.stopCh)`.  Closing an already-closed channel
panics in Go with the message below; we model that as `Except.error`. -/
def TimeCache.Stop (tc : TimeCache) : Except String TimeCache :=
  if tc.stopChClosed then
    Except.error "close of closed channel"
  else
    Except.ok { tc with stopChClosed := true }

/-- Events observed by the background `updateLoop`'s `select`:
a ticker tick (carrying the freshly sampled `time.Now().UnixNano()`), or
receipt of the (closed) stop channel. -/
inductive Event where
  | tick (now : Int)
  | stopRecv
deriving Repr, DecidableEq

/-- One iteration of `updateLoop`'s `select`.  A tick atomically stores the
sample while the loop is running (after the loop has returned, ticks no
longer update anything).  The stop branch can only fire once `stopCh` is
closed; it stops the ticker and exits the loop. -/
def loopStep (tc : TimeCache) : Event → TimeCache
  | Event.tick now =>
      if tc.tickerRunning then { tc with cachedTimeNano := now } else tc
  | Event.stopRecv =>
      if tc.stopChClosed && tc.tickerRunning then { tc with tickerRunning := false } else tc

/-- Run the update loop over a sequence of events. -/
def run (tc : TimeCache) : List Event → TimeCache
  | [] => tc
  | e :: es => run (loopStep tc e) es

/-- The wall-clock samples carried by the tick events of a trace. -/
def tickValues : List Event → List Int
  | [] => []
  | Event.tick v :: es => v :: tickValues es
  | Event.stopRecv :: es => tickValues es

/-! ### `time.Time` values

Modelled from the Go standard library: `time.Unix(sec, nsec)` normalises
the nanosecond field into `[0, 10^9)` (carrying whole seconds into `sec`,
i.e. floor division, which is what `/` and `%` on `Int` compute for a
positive divisor), `UTC()` only changes the location, and `UnixNano()`
computes `sec*10^9 + nsec` in `int64` arithmetic (wrap-around made
explicit by `wrap64`). -/

/-- A `time.Time` value as produced by `time.Unix`: seconds since the Unix
epoch, nanoseconds within the second, and whether the location is UTC. -/
structure GoTime where
  sec : Int
  nsec : Int
  isUTC : Bool
deriving Repr, DecidableEq

/-- `time.Unix(sec, nsec)` (location: Local). -/
def timeUnix (sec nsec : Int) : GoTime :=
  { sec := sec + nsec / 1000000000, nsec := nsec % 1000000000, isUTC := false }

/-- `Time.UTC()`: same instant, location set to UTC. -/
def GoTime.UTC (t : GoTime) : GoTime := { t with isUTC := true }

/-- Two's-complement wrap-around of an `int64` computation. -/
def wrap64 (x : Int) : Int := (x + 2 ^ 63) % 2 ^ 64 - 2 ^ 63

/-- `Time.UnixNano()`: `sec*1e9 + nsec` in `int64` arithmetic. -/
def GoTime.UnixNano (t : GoTime) : Int := wrap64 (t.sec * 1000000000 + t.nsec)

/-- `CachedTime` method: `time.Unix(0, atomic.LoadInt64(&tc.cachedTimeNano))`. -/
def TimeCache.CachedTime (tc : TimeCache) : GoTime :=
  timeUnix 0 tc.cachedTimeNano

/-! ### Calendar computation

Modelled from the Go standard library: `time.Time.Date` computes the
proleptic-Gregorian calendar date of an instant.  We express it with the
standard civil-from-days / days-from-civil algorithms over days since the
Unix epoch, which agree with Go's `absDate` computation on every instant.
`z` below is the number of days since 1970-01-01, `doe` the day-of-era
(era = 400 Gregorian years = 146097 days), `yoe` the year-of-era, `doy`
the day-of-year of a March-based year, `mp` the March-based month. -/

/-- Day-of-era of a day count (era of 146097 days, shifted to 0000-03-01). -/
def doeOfDays (z : Int) : Int := (z + 719468) % 146097

/-- Era index of a day count. -/
def eraOfDays (z : Int) : Int := (z + 719468) / 146097

/-- Year-of-era (0..399) of a day count. -/
def yoeOfDays (z : Int) : Int :=
  (doeOfDays z - doeOfDays z / 1460 + doeOfDays z / 36524 - doeOfDays z / 146096) / 365

/-- Day-of-year (March-based, 0..365) of a day count. -/
def doyOfDays (z : Int) : Int :=
  doeOfDays z - (365 * yoeOfDays z + yoeOfDays z / 4 - yoeOfDays z / 100)

/-- March-based month index (0..11) of a day count. -/
def mpOfDays (z : Int) : Int := (5 * doyOfDays z + 2) / 153

/-- Day of month (1..31) of a day count. -/
def dayOfDays (z : Int) : Int := doyOfDays z - (153 * mpOfDays z + 2) / 5 + 1

/-- Calendar month (1..12) of a day count. -/
def monthOfDays (z : Int) : Int :=
  if mpOfDays z < 10 then mpOfDays z + 3 else mpOfDays z - 9

/-- Calendar year of a day count. -/
def yearOfDays (z : Int) : Int :=
  (if monthOfDays z ≤ 2 then 1 else 0) + yoeOfDays z + 400 * eraOfDays z

/-- The civil year adjusted to a March-based year. -/
def daysAdjYear (y m : Int) : Int := if m ≤ 2 then y - 1 else y

/-- Days since the Unix epoch of a proleptic-Gregorian calendar date
(the inverse direction of the computation above, used by the RFC 3339
parser to recover the instant). -/
def daysFromDate (y m d : Int) : Int :=
  daysAdjYear y m / 400 * 146097 +
    ((daysAdjYear y m - 400 * (daysAdjYear y m / 400)) * 365 +
      (daysAdjYear y m - 400 * (daysAdjYear y m / 400)) / 4 -
      (daysAdjYear y m - 400 * (daysAdjYear y m / 400)) / 100 +
      ((153 * (m + (if 2 < m then -3 else 9)) + 2) / 5 + d - 1)) - 719468

/-! ### RFC 3339 formatting

Modelled from the Go standard library: `Format(time.RFC3339Nano)` with
layout `2006-01-02T15:04:05.999999999Z07:00` prints, for a UTC time,
zero-padded year (4 digits), month, day, hour, minute and second (2 digits
each), the fractional second with trailing zeros removed (omitted entirely
when zero), and the literal `Z` for the UTC offset. -/

/-- The decimal digit characters. -/
def digitChar : Nat → Char
  | 0 => '0'
  | 1 => '1'
  | 2 => '2'
  | 3 => '3'
  | 4 => '4'
  | 5 => '5'
  | 6 => '6'
  | 7 => '7'
  | 8 => '8'
  | _ => '9'

/-- Zero-padded fixed-width decimal rendering of a natural number. -/
def writeNat : Nat → Nat → List Char
  | 0, _ => []
  | w + 1, n => writeNat w (n / 10) ++ [digitChar (n % 10)]

/-- Whether a character is a decimal digit. -/
def isDigitChar (c : Char) : Bool := 48 ≤ c.toNat && c.toNat ≤ 57

/-- Remove trailing `'0'` characters. -/
def stripTrailingZeros (cs : List Char) : List Char :=
  (cs.reverse.dropWhile (fun c => c == '0')).reverse

/-- The fractional-second part of the `.999999999` layout element:
empty for a zero fraction, otherwise a dot followed by the 9 fractional
digits with trailing zeros removed. -/
def fracChars (frac : Nat) : List Char :=
  if frac = 0 then [] else '.' :: stripTrailingZeros (writeNat 9 frac)

/-- Days since the Unix epoch of an instant. -/
def goDays (t : GoTime) : Int := t.sec / 86400

/-- Second within the day of an instant. -/
def goSecOfDay (t : GoTime) : Int := t.sec % 86400

/-- `Format(time.RFC3339Nano)` of a UTC time (as produced by
`CachedTimeString`, whose year always has four digits). -/
def formatRFC3339Nano (t : GoTime) : String :=
  String.mk
    (writeNat 4 (yearOfDays (goDays t)).toNat ++ '-' ::
      writeNat 2 (monthOfDays (goDays t)).toNat ++ '-' ::
        writeNat 2 (dayOfDays (goDays t)).toNat ++ 'T' ::
          writeNat 2 (goSecOfDay t / 3600).toNat ++ ':' ::
            writeNat 2 (goSecOfDay t % 3600 / 60).toNat ++ ':' ::
              writeNat 2 (goSecOfDay t % 60).toNat ++
                fracChars t.nsec.toNat ++ ['Z'])

/-- `CachedTimeString` method:
`time.Unix(0, atomic.LoadInt64(&tc.cachedTimeNano)).UTC().Format(time.RFC3339Nano)`. -/
def TimeCache.CachedTimeString (tc : TimeCache) : String :=
  formatRFC3339Nano (timeUnix 0 tc.cachedTimeNano).UTC

/-! ### An RFC 3339 parser

The specification side of the round-trip claim: a standard RFC 3339
parser for timestamps in UTC (`Z`) form with up to nanosecond precision,
following the grammar `date-time = full-date "T" full-time` of RFC 3339
and yielding nanoseconds since the Unix epoch. -/

/-- Read exactly `w` decimal digits, accumulating their value. -/
def readFixed : Nat → Nat → List Char → Option (Nat × List Char)
  | 0, acc, cs => some (acc, cs)
  | _ + 1, _, [] => none
  | w + 1, acc, c :: cs =>
      if isDigitChar c then readFixed w (acc * 10 + (c.toNat - 48)) cs else none

/-- Consume one expected character. -/
def expectChar (c : Char) : List Char → Option (List Char)
  | [] => none
  | c' :: cs => if c' = c then some cs else none

/-- Decimal value of a digit string, with accumulator. -/
def digitsToNatAcc (acc : Nat) (cs : List Char) : Nat :=
  cs.foldl (fun a c => a * 10 + (c.toNat - 48)) acc

/-- Parse the optional fractional-second part followed by the `Z` UTC
designator, yielding the fraction in nanoseconds: either the bare `Z`
(zero fraction), or a dot, between one and nine fractional digits, and
`Z`. -/
def parseFracZ : List Char → Option Nat
  | [] => none
  | c :: rest =>
      if c = 'Z' ∧ rest = [] then some 0
      else if c = '.' ∧ 0 < (rest.takeWhile isDigitChar).length ∧
          (rest.takeWhile isDigitChar).length ≤ 9 ∧
          rest.drop (rest.takeWhile isDigitChar).length = ['Z'] then
        some (digitsToNatAcc 0 (rest.takeWhile isDigitChar) *
          10 ^ (9 - (rest.takeWhile isDigitChar).length))
      else none

/-- A standard RFC 3339 parser (UTC form, nanosecond precision): parses
`YYYY-MM-DDTHH:MM:SS[.f...]Z`, validating the field ranges, and returns
the instant as nanoseconds since the Unix epoch. -/
def parseRFC3339NanoChars (cs : List Char) : Option Int := do
  let (y, r1) ← readFixed 4 0 cs
  let r2 ← expectChar '-' r1
  let (mo, r3) ← readFixed 2 0 r2
  let r4 ← expectChar '-' r3
  let (d, r5) ← readFixed 2 0 r4
  let r6 ← expectChar 'T' r5
  let (h, r7) ← readFixed 2 0 r6
  let r8 ← expectChar ':' r7
  let (mi, r9) ← readFixed 2 0 r8
  let r10 ← expectChar ':' r9
  let (sec, r11) ← readFixed 2 0 r10
  if mo < 1 ∨ 12 < mo ∨ d < 1 ∨ 31 < d ∨ 23 < h ∨ 59 < mi ∨ 59 < sec then none
  else do
    let frac ← parseFracZ r11
    some ((daysFromDate (y : Int) (mo : Int) (d : Int) * 86400 +
      (h : Int) * 3600 + (mi : Int) * 60 + (sec : Int)) * 1000000000 + (frac : Int))

/-- The RFC 3339 parser on strings. -/
def parseRFC3339Nano (s : String) : Option Int :=
  parseRFC3339NanoChars s.data

/-! ### Package-level API

The global functions forward to the package's `defaultCache` variable;
we pass the current value of that variable explicitly. -/

/-- `DefaultCache()`: returns the global default `TimeCache` instance. -/
def DefaultCache (defaultCache : TimeCache) : TimeCache := defaultCache

/-- Package-level `CachedTimeNano()`: `defaultCache.CachedTimeNano()`. -/
def CachedTimeNano (defaultCache : TimeCache) : Int :=
  defaultCache.CachedTimeNano

/-- Package-level `CachedTime()`: `defaultCache.CachedTime()`. -/
def CachedTime (defaultCache : TimeCache) : GoTime :=
  defaultCache.CachedTime

/-- Package-level `CachedTimeString()`: `defaultCache.CachedTimeString()`. -/
def CachedTimeString (defaultCache : TimeCache) : String :=
  defaultCache.CachedTimeString

/-- `StopDefaultCache()`: `defaultCache.Stop()`. -/
def StopDefaultCache (defaultCache : TimeCache) : Except String TimeCache :=
  defaultCache.Stop

/-! ## Helper lemmas about the update loop -/

/-- Once the update loop has exited (`tickerRunning = false`), no event
changes the cache state at all. -/
lemma run_frozen : ∀ (es : List Event) (tc : TimeCache),
    tc.tickerRunning = false → run tc es = tc
  | [], _, _ => rfl
  | e :: es, tc, h => by
      have hstep : loopStep tc e = tc := by
        cases e with
        | tick v => simp [loopStep, h]
        | stopRecv => simp [loopStep, h]
      rw [run, hstep, run_frozen es tc h]

/-- While the loop is running and no stop signal occurs, the published
value only moves forward along a non-decreasing sample sequence. -/
lemma run_ge_of_chain : ∀ (es : List Event) (tc : TimeCache),
    tc.tickerRunning = true → Event.stopRecv ∉ es →
    List.Chain' (· ≤ ·) (tc.cachedTimeNano :: tickValues es) →
    tc.cachedTimeNano ≤ (run tc es).cachedTimeNano
  | [], _, _, _, _ => le_refl _
  | Event.stopRecv :: _, _, _, hmem, _ => absurd (List.mem_cons_self _ _) hmem
  | Event.tick v :: es, tc, hrun, hmem, hchain => by
      simp only [tickValues] at hchain
      rw [List.chain'_cons] at hchain
      have hstep : loopStep tc (Event.tick v) = { tc with cachedTimeNano := v } := by
        simp [loopStep, hrun]
      have hmem' : Event.stopRecv ∉ es := fun hx => hmem (List.mem_cons_of_mem _ hx)
      have hrec := run_ge_of_chain es { tc with cachedTimeNano := v } hrun hmem' hchain.2
      rw [run, hstep]
      exact le_trans hchain.1 hrec

/-! ## Helper lemmas for the calendar computation -/

/-- The day-of-era lies in `[0, 146097)`. -/
lemma doe_bounds (z : Int) : 0 ≤ doeOfDays z ∧ doeOfDays z < 146097 :=
  ⟨Int.emod_nonneg _ (by norm_num), Int.emod_lt_of_pos _ (by norm_num)⟩

/-- The year-of-era lies in `[0, 399]`. -/
lemma yoe_bounds (z : Int) : 0 ≤ yoeOfDays z ∧ yoeOfDays z ≤ 399 := by
  have h := doe_bounds z
  unfold yoeOfDays
  omega

set_option maxHeartbeats 2000000 in
/-- Core bound on the day-of-year expression of the civil-from-days
algorithm, by exhausting the 400 possible years of an era. -/
lemma doy_bounds_core (D Y : Int) (h1 : 0 ≤ D) (h2 : D < 146097)
    (h3 : Y = (D - D / 1460 + D / 36524 - D / 146096) / 365) :
    0 ≤ D - (365 * Y + Y / 4 - Y / 100) ∧ D - (365 * Y + Y / 4 - Y / 100) ≤ 365 := by
  have hy1 : 0 ≤ Y := by omega
  have hy2 : Y ≤ 399 := by omega
  interval_cases Y <;> omega

/-- The day-of-year lies in `[0, 365]`. -/
lemma doy_bounds (z : Int) : 0 ≤ doyOfDays z ∧ doyOfDays z ≤ 365 := by
  have h := doe_bounds z
  exact doy_bounds_core (doeOfDays z) (yoeOfDays z) h.1 h.2 rfl

/-- The March-based month index lies in `[0, 11]`. -/
lemma mp_bounds (z : Int) : 0 ≤ mpOfDays z ∧ mpOfDays z ≤ 11 := by
  have h := doy_bounds z
  unfold mpOfDays
  omega

/-- The month lies in `[1, 12]`. -/
lemma month_bounds (z : Int) : 1 ≤ monthOfDays z ∧ monthOfDays z ≤ 12 := by
  have h := mp_bounds z
  unfold monthOfDays
  split <;> omega

/-- The day of month lies in `[1, 31]`. -/
lemma day_bounds (z : Int) : 1 ≤ dayOfDays z ∧ dayOfDays z ≤ 31 := by
  have h1 := doy_bounds z
  have h2 := mp_bounds z
  have hMP : mpOfDays z = (5 * doyOfDays z + 2) / 153 := rfl
  unfold dayOfDays
  omega

/-- For day counts reachable from an `int64` nanosecond value the year has
at most four digits. -/
lemma year_bounds (z : Int) (h1 : -106752 ≤ z) (h2 : z ≤ 106751) :
    0 ≤ yearOfDays z ∧ yearOfDays z < 10000 := by
  have hy := yoe_bounds z
  have hera : 4 ≤ eraOfDays z ∧ eraOfDays z ≤ 5 := by unfold eraOfDays; omega
  unfold yearOfDays
  split <;> omega

/-- `daysFromDate` inverts the civil-from-days pieces, stated over plain
integer variables related by the defining equations. -/
lemma daysFromDate_core (E A Y DOY MP DAY M YR z : Int)
    (hE : 146097 * E + A = z + 719468)
    (hY1 : 0 ≤ Y) (hY2 : Y ≤ 399)
    (hDOY : DOY = A - (365 * Y + Y / 4 - Y / 100))
    (hMP1 : 0 ≤ MP) (hMP2 : MP ≤ 11)
    (hDAY : DAY = DOY - (153 * MP + 2) / 5 + 1)
    (hM : M = if MP < 10 then MP + 3 else MP - 9)
    (hYR : YR = (if M ≤ 2 then 1 else 0) + Y + 400 * E) :
    daysFromDate YR M DAY = z := by
  unfold daysFromDate daysAdjYear
  rcases lt_or_le MP 10 with h10 | h10
  · rw [if_pos h10] at hM
    rw [hM] at hYR ⊢
    rw [if_neg (by omega), if_pos (by omega)]
    rw [if_neg (by omega)] at hYR
    rw [show YR / 400 = E from by omega]
    rw [show YR - 400 * E = Y from by omega]
    omega
  · rw [if_neg (by omega)] at hM
    rw [hM] at hYR ⊢
    rw [if_pos (by omega), if_neg (by omega)]
    rw [if_pos (by omega)] at hYR
    rw [show (YR - 1) / 400 = E from by omega]
    rw [show YR - 1 - 400 * E = Y from by omega]
    omega

/-- Round trip of the calendar conversion: converting a day count to a
date and back is the identity. -/
lemma daysFromDate_inverts (z : Int) :
    daysFromDate (yearOfDays z) (monthOfDays z) (dayOfDays z) = z := by
  have hy := yoe_bounds z
  have hmp := mp_bounds z
  exact daysFromDate_core (eraOfDays z) (doeOfDays z) (yoeOfDays z) (doyOfDays z)
    (mpOfDays z) (dayOfDays z) (monthOfDays z) (yearOfDays z) z
    (Int.ediv_add_emod _ _) hy.1 hy.2 rfl hmp.1 hmp.2 rfl rfl rfl

/-! ## Helper lemmas about digit strings -/

/-- `digitChar` of a digit is a digit character. -/
lemma digitChar_digit (d : Nat) (h : d < 10) : isDigitChar (digitChar d) = true := by
  interval_cases d <;> rfl

/-- Numeric value of `digitChar`. -/
lemma digitChar_toNat (d : Nat) (h : d < 10) : (digitChar d).toNat - 48 = d := by
  interval_cases d <;> rfl

/-- `writeNat w` always produces `w` characters. -/
lemma writeNat_length (w n : Nat) : (writeNat w n).length = w := by
  induction w generalizing n with
  | zero => rfl
  | succ w ih => simp [writeNat, ih]

/-- `writeNat` produces only digit characters. -/
lemma writeNat_digits (w : Nat) : ∀ (n : Nat), ∀ c ∈ writeNat w n, isDigitChar c = true := by
  induction w with
  | zero => intro n c hc; simp [writeNat] at hc
  | succ w ih =>
      intro n c hc
      simp only [writeNat, List.mem_append, List.mem_singleton] at hc
      rcases hc with hc | hc
      · exact ih (n / 10) c hc
      · rw [hc]
        exact digitChar_digit (n % 10) (Nat.mod_lt _ (by norm_num))

/-- `digitsToNatAcc` distributes over append. -/
lemma digitsToNatAcc_append (acc : Nat) (xs ys : List Char) :
    digitsToNatAcc acc (xs ++ ys) = digitsToNatAcc (digitsToNatAcc acc xs) ys := by
  simp [digitsToNatAcc, List.foldl_append]

/-- Reading back the digits written by `writeNat` recovers the value. -/
lemma digitsToNatAcc_writeNat (w : Nat) : ∀ (n acc : Nat), n < 10 ^ w →
    digitsToNatAcc acc (writeNat w n) = acc * 10 ^ w + n := by
  induction w with
  | zero =>
      intro n acc h
      simp [writeNat, digitsToNatAcc]
      omega
  | succ w ih =>
      intro n acc h
      have hdiv : n / 10 < 10 ^ w := by
        rw [pow_succ] at h
        omega
      rw [writeNat, digitsToNatAcc_append, ih (n / 10) acc hdiv]
      show (acc * 10 ^ w + n / 10) * 10 + ((digitChar (n % 10)).toNat - 48)
        = acc * 10 ^ (w + 1) + n
      rw [digitChar_toNat (n % 10) (Nat.mod_lt _ (by norm_num))]
      calc (acc * 10 ^ w + n / 10) * 10 + n % 10
          = acc * (10 ^ w * 10) + (n / 10 * 10 + n % 10) := by ring
        _ = acc * 10 ^ (w + 1) + n := by rw [pow_succ]; congr 1; omega

/-- `readFixed` consumes exactly a block of digit characters. -/
lemma readFixed_digits : ∀ (ds : List Char) (acc : Nat) (rest : List Char),
    (∀ c ∈ ds, isDigitChar c = true) →
    readFixed ds.length acc (ds ++ rest) = some (digitsToNatAcc acc ds, rest)
  | [], _, _, _ => rfl
  | c :: ds, acc, rest, hd => by
      have hc : isDigitChar c = true := hd c (List.mem_cons_self _ _)
      simp only [List.length_cons, List.cons_append, readFixed, hc, if_true]
      exact readFixed_digits ds (acc * 10 + (c.toNat - 48)) rest
        (fun x hx => hd x (List.mem_cons_of_mem _ hx))

/-- `readFixed` inverts `writeNat`. -/
lemma readFixed_writeNat (w acc n : Nat) (rest : List Char) (h : n < 10 ^ w) :
    readFixed w acc (writeNat w n ++ rest) = some (acc * 10 ^ w + n, rest) := by
  have hlen := writeNat_length w n
  have hr := readFixed_digits (writeNat w n) acc rest (writeNat_digits w n)
  rw [hlen, digitsToNatAcc_writeNat w n acc h] at hr
  exact hr

/-- `expectChar` consumes the expected character. -/
lemma expectChar_cons (c : Char) (cs : List Char) : expectChar c (c :: cs) = some cs := by
  simp [expectChar]

/-- Decomposition of a character list into its trailing-zeros-stripped
prefix and the stripped zeros. -/
lemma strip_decomp (cs : List Char) :
    ∃ k, cs = stripTrailingZeros cs ++ List.replicate k '0' ∧
      (stripTrailingZeros cs).length + k = cs.length := by
  have htw : List.takeWhile (fun c => c == '0') cs.reverse
      = List.replicate (List.takeWhile (fun c => c == '0') cs.reverse).length '0' := by
    apply List.eq_replicate_of_mem
    intro b hb
    have hp := List.mem_takeWhile_imp hb
    simpa using hp
  refine ⟨(List.takeWhile (fun c => c == '0') cs.reverse).length, ?_, ?_⟩
  · conv_lhs => rw [← List.reverse_reverse cs,
      ← List.takeWhile_append_dropWhile (p := fun c => c == '0') (l := cs.reverse),
      List.reverse_append, htw, List.reverse_replicate]
    rfl
  · have h2 := congrArg List.length
      (List.takeWhile_append_dropWhile (p := fun c => c == '0') (l := cs.reverse))
    simp only [List.length_append, List.length_reverse] at h2
    unfold stripTrailingZeros
    simp only [List.length_reverse]
    omega

/-- Reading a block of `'0'` characters multiplies the accumulator. -/
lemma digitsToNatAcc_zeros (k : Nat) : ∀ acc : Nat,
    digitsToNatAcc acc (List.replicate k '0') = acc * 10 ^ k := by
  induction k with
  | zero => intro acc; simp [digitsToNatAcc]
  | succ k ih =>
      intro acc
      rw [List.replicate_succ]
      show digitsToNatAcc (acc * 10 + ('0'.toNat - 48)) (List.replicate k '0')
        = acc * 10 ^ (k + 1)
      rw [ih]
      have h0 : '0'.toNat - 48 = 0 := rfl
      rw [h0, Nat.add_zero, pow_succ]
      ring

/-- `takeWhile` runs past a block all of whose elements satisfy the
predicate. -/
lemma takeWhile_all_append (p : Char → Bool) : ∀ (xs ys : List Char),
    (∀ c ∈ xs, p c = true) →
    (xs ++ ys).takeWhile p = xs ++ ys.takeWhile p
  | [], _, _ => rfl
  | x :: xs, ys, h => by
      simp only [List.cons_append, List.takeWhile_cons, h x (List.mem_cons_self _ _), if_true]
      rw [takeWhile_all_append p xs ys (fun c hc => h c (List.mem_cons_of_mem _ hc))]

/-- The fraction parser inverts the fraction formatter. -/
lemma parseFracZ_fracChars (F : Nat) (h : F < 10 ^ 9) :
    parseFracZ (fracChars F ++ ['Z']) = some F := by
  unfold fracChars
  by_cases hF : F = 0
  · subst hF
    rfl
  · rw [if_neg hF]
    obtain ⟨k, hdec, hlen⟩ := strip_decomp (writeNat 9 F)
    rw [writeNat_length] at hlen
    have hvF : digitsToNatAcc 0 (writeNat 9 F) = F := by
      have hw := digitsToNatAcc_writeNat 9 F 0 h
      simpa using hw
    have hSne : stripTrailingZeros (writeNat 9 F) ≠ [] := by
      intro hnil
      rw [hnil] at hdec hlen
      rw [hdec, List.nil_append, digitsToNatAcc_zeros] at hvF
      simp at hvF
      exact hF hvF.symm
    have hSdig : ∀ c ∈ stripTrailingZeros (writeNat 9 F), isDigitChar c = true := by
      intro c hc
      apply writeNat_digits 9 F
      rw [hdec]
      exact List.mem_append_left _ hc
    have htake : (stripTrailingZeros (writeNat 9 F) ++ ['Z']).takeWhile isDigitChar
        = stripTrailingZeros (writeNat 9 F) := by
      rw [takeWhile_all_append isDigitChar _ _ hSdig,
        show List.takeWhile isDigitChar ['Z'] = [] from rfl, List.append_nil]
    have hl0 : (stripTrailingZeros (writeNat 9 F)).length ≠ 0 := by
      intro hx
      exact hSne (List.length_eq_zero.mp hx)
    show parseFracZ ('.' :: (stripTrailingZeros (writeNat 9 F) ++ ['Z'])) = some F
    simp only [parseFracZ]
    rw [if_neg (fun hx => absurd hx.1 (by decide))]
    rw [htake]
    rw [if_pos ⟨trivial, by omega, by omega, List.drop_left _ _⟩]
    rw [hdec, digitsToNatAcc_append, digitsToNatAcc_zeros] at hvF
    have hk : k = 9 - (stripTrailingZeros (writeNat 9 F)).length := by omega
    rw [← hk, hvF]

/-- The RFC 3339 parser applied to a formatted timestamp with in-range
fields recovers the encoded instant. -/
lemma parse_format (Y M D H MI S F : Nat)
    (hY : Y < 10000) (hF : F < 1000000000)
    (hM1 : 1 ≤ M) (hM12 : M ≤ 12) (hD1 : 1 ≤ D) (hD31 : D ≤ 31)
    (hH23 : H ≤ 23) (hMI59 : MI ≤ 59) (hS59 : S ≤ 59) :
    parseRFC3339NanoChars
      (writeNat 4 Y ++ '-' :: writeNat 2 M ++ '-' :: writeNat 2 D ++ 'T' ::
        writeNat 2 H ++ ':' :: writeNat 2 MI ++ ':' :: writeNat 2 S ++
        fracChars F ++ ['Z'])
      = some ((daysFromDate (Y : Int) (M : Int) (D : Int) * 86400 +
          (H : Int) * 3600 + (MI : Int) * 60 + (S : Int)) * 1000000000 + (F : Int)) := by
  unfold parseRFC3339NanoChars
  simp only [List.append_assoc, List.cons_append]
  rw [readFixed_writeNat 4 0 Y _ (by omega)]
  simp only [Option.bind_eq_bind, Option.some_bind, Nat.zero_mul, Nat.zero_add]
  rw [expectChar_cons]
  simp only [Option.some_bind]
  rw [readFixed_writeNat 2 0 M _ (by omega)]
  simp only [Option.some_bind, Nat.zero_mul, Nat.zero_add]
  rw [expectChar_cons]
  simp only [Option.some_bind]
  rw [readFixed_writeNat 2 0 D _ (by omega)]
  simp only [Option.some_bind, Nat.zero_mul, Nat.zero_add]
  rw [expectChar_cons]
  simp only [Option.some_bind]
  rw [readFixed_writeNat 2 0 H _ (by omega)]
  simp only [Option.some_bind, Nat.zero_mul, Nat.zero_add]
  rw [expectChar_cons]
  simp only [Option.some_bind]
  rw [readFixed_writeNat 2 0 MI _ (by omega)]
  simp only [Option.some_bind, Nat.zero_mul, Nat.zero_add]
  rw [expectChar_cons]
  simp only [Option.some_bind]
  rw [readFixed_writeNat 2 0 S _ (by omega)]
  simp only [Option.some_bind, Nat.zero_mul, Nat.zero_add]
  rw [if_neg (by omega)]
  rw [parseFracZ_fracChars F (by omega)]
  simp only [Option.some_bind]

/-! ## Claim theorems -/

/-- C1. Freeze-on-stop: once `Stop()` has been called (successfully) and
the update loop has consumed the stop signal, any further sequence of
events leaves the cached value unchanged: every subsequent
`CachedTimeNano()` returns exactly the value observed immediately before
`Stop()` was called. -/
theorem freeze_on_stop (tc tc' : TimeCache) (es : List Event)
    (h : tc.Stop = Except.ok tc') :
    (run (loopStep tc' Event.stopRecv) es).CachedTimeNano = tc.CachedTimeNano := by
  unfold TimeCache.Stop at h
  by_cases hc : tc.stopChClosed = true
  · rw [if_pos hc] at h
    exact absurd h (by simp)
  · rw [if_neg hc] at h
    simp only [Except.ok.injEq] at h
    subst h
    have hrun : (loopStep { tc with stopChClosed := true } Event.stopRecv).tickerRunning
        = false := by
      cases htr : tc.tickerRunning <;> simp [loopStep, htr]
    have hnano : (loopStep { tc with stopChClosed := true } Event.stopRecv).cachedTimeNano
        = tc.cachedTimeNano := by
      cases htr : tc.tickerRunning <;> simp [loopStep, htr]
    unfold TimeCache.CachedTimeNano
    rw [run_frozen es _ hrun, hnano]

/-- C1 witness. -/
theorem freeze_on_stop_witness :
    (run (loopStep ⟨100, 1000, true, true⟩ Event.stopRecv) [Event.tick 5]).CachedTimeNano
      = TimeCache.CachedTimeNano ⟨100, 1000, false, true⟩ :=
  freeze_on_stop ⟨100, 1000, false, true⟩ ⟨100, 1000, true, true⟩ [Event.tick 5] rfl

/-- C2. Monotonicity: for an active cache (loop running, no stop signal in
the trace), if the wall-clock samples taken by the refresh task are
non-decreasing (each one at least the previously published value), then a
`CachedTimeNano()` read after any prefix of the trace is no larger than a
read after the whole trace. -/
theorem cachedTimeNano_monotone (es₁ es₂ : List Event) (tc : TimeCache)
    (hrun : tc.tickerRunning = true) (hmem : Event.stopRecv ∉ es₁ ++ es₂)
    (hchain : List.Chain' (· ≤ ·) (tc.cachedTimeNano :: tickValues (es₁ ++ es₂))) :
    (run tc es₁).CachedTimeNano ≤ (run tc (es₁ ++ es₂)).CachedTimeNano := by
  induction es₁ generalizing tc with
  | nil =>
      exact run_ge_of_chain es₂ tc hrun (by simpa using hmem) (by simpa using hchain)
  | cons e es ih =>
      cases e with
      | stopRecv => exact absurd (List.mem_cons_self _ _) hmem
      | tick v =>
          rw [List.cons_append] at hmem hchain ⊢
          simp only [tickValues] at hchain
          rw [List.chain'_cons] at hchain
          have hstep : loopStep tc (Event.tick v) = { tc with cachedTimeNano := v } := by
            simp [loopStep, hrun]
          have hmem' : Event.stopRecv ∉ es ++ es₂ :=
            fun hx => hmem (List.mem_cons_of_mem _ hx)
          rw [run, run, hstep]
          exact ih { tc with cachedTimeNano := v } hrun hmem' hchain.2

/-- C2 witness. -/
theorem cachedTimeNano_monotone_witness :
    (run ⟨1, 1000, false, true⟩ [Event.tick 2]).CachedTimeNano
      ≤ (run ⟨1, 1000, false, true⟩ ([Event.tick 2] ++ [Event.tick 3])).CachedTimeNano :=
  cachedTimeNano_monotone [Event.tick 2] [Event.tick 3] ⟨1, 1000, false, true⟩
    rfl (by decide) (by norm_num [tickValues, List.chain'_cons])

/-- C3. Initial synchronous sample: for every positive interval,
`NewWithResolution` returns (no panic) a cache whose published value is
exactly the synchronously captured wall-clock sample `now`; there is no
uninitialized observable state. -/
theorem newWithResolution_initial_sample (resolution now : Int) (h : 0 < resolution) :
    ∃ tc : TimeCache, NewWithResolution resolution now = Except.ok tc ∧
      tc.CachedTimeNano = now := by
  refine ⟨{ cachedTimeNano := now, resolution := resolution,
            stopChClosed := false, tickerRunning := true }, ?_, rfl⟩
  unfold NewWithResolution
  rw [if_neg (by omega)]

/-- C3 witness. -/
theorem newWithResolution_initial_sample_witness :
    ∃ tc : TimeCache, NewWithResolution 1000 42 = Except.ok tc ∧
      tc.CachedTimeNano = 42 :=
  newWithResolution_initial_sample 1000 42 (by decide)

/-- C5. `CachedTime` is derived from the nanosecond value: for every cache
state (within the `int64` range of the field), `CachedTime().UnixNano()`
equals `CachedTimeNano()`. -/
theorem cachedTime_unixNano (tc : TimeCache)
    (h1 : -(2 ^ 63) ≤ tc.cachedTimeNano) (h2 : tc.cachedTimeNano < 2 ^ 63) :
    tc.CachedTime.UnixNano = tc.CachedTimeNano := by
  unfold TimeCache.CachedTime TimeCache.CachedTimeNano timeUnix GoTime.UnixNano wrap64
  simp only
  norm_num at h1 h2 ⊢
  omega

/-- C5 witness. -/
theorem cachedTime_unixNano_witness :
    (TimeCache.CachedTime ⟨123456789012345, 500000, false, true⟩).UnixNano
      = TimeCache.CachedTimeNano ⟨123456789012345, 500000, false, true⟩ :=
  cachedTime_unixNano ⟨123456789012345, 500000, false, true⟩ (by decide) (by decide)

/-- C6. Stop is not idempotent: on a freshly constructed cache the first
`Stop()` succeeds, and any second `Stop()` fails loudly with the Go
runtime panic for closing an already-closed channel. -/
theorem stop_not_idempotent (resolution now : Int) (tc : TimeCache)
    (h : NewWithResolution resolution now = Except.ok tc) :
    (∃ tc', tc.Stop = Except.ok tc') ∧
      ∀ tc', tc.Stop = Except.ok tc' →
        tc'.Stop = Except.error "close of closed channel" := by
  unfold NewWithResolution at h
  by_cases hres : resolution ≤ 0
  · rw [if_pos hres] at h
    exact absurd h (by simp)
  · rw [if_neg hres] at h
    simp only [Except.ok.injEq] at h
    subst h
    refine ⟨⟨_, rfl⟩, ?_⟩
    intro tc' h'
    unfold TimeCache.Stop at h'
    simp only [Bool.false_eq_true, if_false, Except.ok.injEq] at h'
    subst h'
    rfl

/-- C6 witness. -/
theorem stop_not_idempotent_witness :
    (∃ tc', TimeCache.Stop ⟨7, 1000, false, true⟩ = Except.ok tc') ∧
      ∀ tc', TimeCache.Stop ⟨7, 1000, false, true⟩ = Except.ok tc' →
        tc'.Stop = Except.error "close of closed channel" :=
  stop_not_idempotent 1000 7 ⟨7, 1000, false, true⟩ rfl

/-- C7. Global forwarding equivalence: each package-level function returns
exactly the result of calling the method of the same name on the shared
default cache instance (the one returned by `DefaultCache()`). -/
theorem global_functions_forward (g : TimeCache) :
    CachedTimeNano g = (DefaultCache g).CachedTimeNano ∧
      CachedTime g = (DefaultCache g).CachedTime ∧
      CachedTimeString g = (DefaultCache g).CachedTimeString ∧
      StopDefaultCache g = (DefaultCache g).Stop :=
  ⟨rfl, rfl, rfl, rfl⟩

/-- C8. Default-resolution construction equivalence: `New()` equals
`NewWithResolution(500 * time.Microsecond)`, the default instance is
constructed the same way, and the resulting cache reports exactly that
resolution. -/
theorem new_is_create_500us (now : Int) :
    New now = NewWithResolution (500 * timeMicrosecond) now ∧
      initDefaultCache now = New now ∧
      ∀ tc, New now = Except.ok tc → tc.Resolution = 500 * timeMicrosecond := by
  refine ⟨rfl, rfl, ?_⟩
  intro tc h
  unfold New NewWithResolution at h
  rw [if_neg (by norm_num [timeMicrosecond])] at h
  simp only [Except.ok.injEq] at h
  subst h
  rfl

/-- C8 witness. -/
theorem new_is_create_500us_witness :
    TimeCache.Resolution ⟨0, 500000, false, true⟩ = 500 * timeMicrosecond :=
  (new_is_create_500us 0).2.2 ⟨0, 500000, false, true⟩ rfl

/-- C9. No torn reads: after any trace of loop events, the value returned
by `CachedTimeNano()` is either the initial sample or one of the values
published (in its entirety) by the refresh task. -/
theorem no_torn_reads (tc : TimeCache) (es : List Event) :
    (run tc es).CachedTimeNano = tc.CachedTimeNano ∨
      (run tc es).CachedTimeNano ∈ tickValues es := by
  induction es generalizing tc with
  | nil => exact Or.inl rfl
  | cons e es ih =>
      cases e with
      | tick v =>
          simp only [run, tickValues]
          rcases ih (loopStep tc (Event.tick v)) with h | h
          · rw [h]
            by_cases hrun : tc.tickerRunning = true
            · refine Or.inr ?_
              simp [loopStep, hrun, TimeCache.CachedTimeNano]
            · refine Or.inl ?_
              simp [loopStep, hrun, TimeCache.CachedTimeNano]
          · exact Or.inr (List.mem_cons_of_mem _ h)
      | stopRecv =>
          simp only [run, tickValues]
          rcases ih (loopStep tc Event.stopRecv) with h | h
          · refine Or.inl ?_
            rw [h]
            show (loopStep tc Event.stopRecv).cachedTimeNano = tc.cachedTimeNano
            simp only [loopStep]
            split <;> rfl
          · exact Or.inr h

/-- C10. A non-positive resolution is not validated by the library and
makes the constructor fail loudly with the `time.NewTicker` panic before
returning. -/
theorem nonpositive_resolution_ticker_panic (resolution now : Int) (h : resolution ≤ 0) :
    NewWithResolution resolution now =
      Except.error "non-positive interval for NewTicker" := by
  unfold NewWithResolution
  exact if_pos h

/-- C10 witness. -/
theorem nonpositive_resolution_ticker_panic_witness :
    NewWithResolution 0 0 = Except.error "non-positive interval for NewTicker" :=
  nonpositive_resolution_ticker_panic 0 0 (by decide)

/-- C4. Format round-trip: for every `int64` value of the cached
timestamp, `CachedTimeString()` formats it as an RFC 3339 string with
nanosecond precision in UTC, and a standard RFC 3339 parser parses that
string back successfully to exactly the same timestamp. -/
theorem cachedTimeString_roundtrip (tc : TimeCache)
    (h1 : -(2 ^ 63) ≤ tc.cachedTimeNano) (h2 : tc.cachedTimeNano < 2 ^ 63) :
    parseRFC3339Nano tc.CachedTimeString = some tc.cachedTimeNano := by
  obtain ⟨n, r0, b0, b1⟩ := tc
  have h1' : -9223372036854775808 ≤ n := by norm_num at h1; exact h1
  have h2' : n < 9223372036854775808 := by norm_num at h2; exact h2
  show parseRFC3339NanoChars
      (writeNat 4 (yearOfDays ((0 + n / 1000000000) / 86400)).toNat ++ '-' ::
        writeNat 2 (monthOfDays ((0 + n / 1000000000) / 86400)).toNat ++ '-' ::
          writeNat 2 (dayOfDays ((0 + n / 1000000000) / 86400)).toNat ++ 'T' ::
            writeNat 2 (((0 + n / 1000000000) % 86400) / 3600).toNat ++ ':' ::
              writeNat 2 (((0 + n / 1000000000) % 86400) % 3600 / 60).toNat ++ ':' ::
                writeNat 2 (((0 + n / 1000000000) % 86400) % 60).toNat ++
                  fracChars (n % 1000000000).toNat ++ ['Z'])
      = some n
  have hZb1 : -106752 ≤ (0 + n / 1000000000) / 86400 := by omega
  have hZb2 : (0 + n / 1000000000) / 86400 ≤ 106751 := by omega
  have hyear := year_bounds _ hZb1 hZb2
  have hmo := month_bounds ((0 + n / 1000000000) / 86400)
  have hday := day_bounds ((0 + n / 1000000000) / 86400)
  rw [parse_format _ _ _ _ _ _ _ (by omega) (by omega) (by omega) (by omega)
    (by omega) (by omega) (by omega) (by omega) (by omega)]
  rw [Int.toNat_of_nonneg hyear.1,
    Int.toNat_of_nonneg (by omega : 0 ≤ monthOfDays ((0 + n / 1000000000) / 86400)),
    Int.toNat_of_nonneg (by omega : 0 ≤ dayOfDays ((0 + n / 1000000000) / 86400))]
  rw [daysFromDate_inverts]
  rw [Int.toNat_of_nonneg (by omega : 0 ≤ ((0 + n / 1000000000) % 86400) / 3600),
    Int.toNat_of_nonneg (by omega : 0 ≤ ((0 + n / 1000000000) % 86400) % 3600 / 60),
    Int.toNat_of_nonneg (by omega : 0 ≤ ((0 + n / 1000000000) % 86400) % 60),
    Int.toNat_of_nonneg (by omega : 0 ≤ n % 1000000000)]
  congr 1
  omega

/-- C4 witness. -/
theorem cachedTimeString_roundtrip_witness :
    parseRFC3339Nano
        (TimeCache.CachedTimeString ⟨1700000000123456789, 500000, false, true⟩)
      = some 1700000000123456789 :=
  cachedTimeString_roundtrip ⟨1700000000123456789, 500000, false, true⟩
    (by decide) (by decide)

end timecache
